import Mathlib

/-!
Verification development for the expense-tracker bot (`mainv3.py`, the most
advanced of the three revisions).  Python strings are modelled as `List Char`,
Python floats as `ℚ`, SQLAlchemy tables as Lean lists, and the per-user
Telegram `context.user_data` session as an explicit record.
-/

namespace ExpensesBot

/-! ### Text utilities (models of Python `str` methods) -/

/-- Models Python `str.strip()` whitespace classification on the ASCII
whitespace characters that can occur in chat text. -/
def pyIsSpace (c : Char) : Bool :=
  c = ' ' || c = '\t' || c = '\n' || c = '\r'

/-- Models Python `s.strip()`: removes leading and trailing whitespace. -/
def pyStrip (s : List Char) : List Char :=
  ((s.dropWhile pyIsSpace).reverse.dropWhile pyIsSpace).reverse

/-- Auxiliary accumulator pass for `pySplitWs`. -/
def pySplitWsAux : List Char → List Char → List (List Char)
  | [], acc => if acc.isEmpty then [] else [acc.reverse]
  | c :: cs, acc =>
      if pyIsSpace c then
        if acc.isEmpty then pySplitWsAux cs [] else acc.reverse :: pySplitWsAux cs []
      else pySplitWsAux cs (c :: acc)

/-- Models Python `s.split()` with no argument: split on runs of whitespace,
discarding empty pieces. -/
def pySplitWs (s : List Char) : List (List Char) :=
  pySplitWsAux s []

/-- Models Python `s.split(sep, 1)`: split at the first occurrence of `sep`,
returning `none` when `sep` does not occur (the `sep in s` test). -/
def splitFirst (sep : Char) : List Char → Option (List Char × List Char)
  | [] => none
  | c :: cs =>
      if c = sep then some ([], cs)
      else (splitFirst sep cs).map (fun p => (c :: p.1, p.2))

/-- Models Python `" ".join(pieces)`. -/
def joinSpace (pieces : List (List Char)) : List Char :=
  (pieces.intersperse [' ']).flatten

/-- Models the amount-cleaning step of `expense_handler`
(`filter(lambda c: c.isdigit() or c == ".", amount_text)`). -/
def cleanAmount (s : List Char) : List Char :=
  s.filter (fun c => c.isDigit || c = '.')

/-! ### Python `float(...)` on plain decimal literals (models the calls in
`expense_handler` and `update_expense`; inputs there are stripped chat text). -/

/-- Numeric value of a digit string, most significant first. -/
def digitsToNat (s : List Char) : Nat :=
  s.foldl (fun n c => n * 10 + (c.toNat - 48)) 0

/-- Parses an unsigned decimal literal `digits [ "." digits ]` with at least
one digit, as Python `float()` accepts (`"5"`, `"5."`, `".5"`). -/
def parseUnsigned (s : List Char) : Option ℚ :=
  let intPart := s.takeWhile Char.isDigit
  let rest := s.dropWhile Char.isDigit
  if rest.isEmpty then
    if intPart.isEmpty then none else some (digitsToNat intPart : ℚ)
  else
    if rest.headD ' ' = '.' && (rest.tail).all Char.isDigit
        && !(intPart.isEmpty && (rest.tail).isEmpty) then
      some ((digitsToNat intPart : ℚ)
        + (digitsToNat rest.tail : ℚ) / (10 : ℚ) ^ (rest.tail).length)
    else none

/-- Models Python `float(text)` on a decimal literal with an optional sign. -/
def parsePyFloat : List Char → Option ℚ
  | [] => none
  | c :: rest =>
      if c = '-' then (parseUnsigned rest).map Neg.neg
      else if c = '+' then parseUnsigned rest
      else parseUnsigned (c :: rest)

/-! ### The expense-text parser (`expense_handler`, the parse section) -/

/-- Models the parse section of `expense_handler`: split `Category-Amount` at
the first dash, otherwise split `Category Amount` on whitespace taking the
last token as the amount; clean the amount text to digits and dots, parse it
as a float, and strip the category (the `category.strip()` at insertion).
Returns `none` where the Python code reports a format error or `float` raises. -/
def parseExpense (text : List Char) : Option (List Char × ℚ) :=
  match splitFirst '-' text with
  | some (category, amountText) =>
      (parsePyFloat (cleanAmount amountText)).map (fun v => (pyStrip category, v))
  | none =>
      let tokens := pySplitWs text
      if tokens.length < 2 then none
      else
        (parsePyFloat (cleanAmount (tokens.getLastD []))).map
          (fun v => (pyStrip (joinSpace tokens.dropLast), v))

/-! ### Data model (`Expense`, `Wallet`, `WalletMember` tables) -/

/-- A UTC datetime as stored by the `DateTime` column; minutes suffice for
every format used by the bot. -/
structure DateTime where
  year : Nat
  month : Nat
  day : Nat
  hour : Nat
  minute : Nat
deriving DecidableEq, Repr

/-- A row of the `expenses` table. -/
structure Expense where
  id : Nat
  user_id : Nat
  category : List Char
  amount : ℚ
  timestamp : DateTime
  wallet_id : Option Nat
deriving DecidableEq, Repr

/-- A row of the `wallets` table. -/
structure Wallet where
  id : Nat
  name : List Char
  owner_id : Nat
deriving DecidableEq, Repr

/-! ### Ledger-store operations -/

/-- The autoincrement primary key the store assigns to a fresh row. -/
def nextId (es : List Expense) : Nat :=
  (es.map Expense.id).foldr max 0 + 1

/-- Models the insertion step of `expense_handler`: parse the stripped text
and append a new `Expense` row; an unparseable text inserts nothing. -/
def recordExpense (es : List Expense) (u : Nat) (w : Option Nat)
    (now : DateTime) (text : List Char) : List Expense :=
  match parseExpense (pyStrip text) with
  | none => es
  | some ca => es ++ [⟨nextId es, u, ca.1, ca.2, now, w⟩]

/-- Sets the amount of the first row with the given id, as
`query(Expense).filter(Expense.id == expense_id).first()` followed by the
attribute assignment does; `none` when no row matches. -/
def setAmountFirst : List Expense → Nat → ℚ → Option (List Expense)
  | [], _, _ => none
  | e :: es, i, v =>
      if e.id = i then some ({ e with amount := v } :: es)
      else (setAmountFirst es i v).map (e :: ·)

/-- Outcome reported by `update_expense`. -/
inductive EditResult
  | updated (category : List Char) (amount : ℚ)
  | notFound
  | invalidAmount
deriving DecidableEq, Repr

/-- Models `update_expense`: parse the stripped reply text as a float
(`ValueError` leaves the store untouched), look the pending expense up by id
(`notFound` leaves the store untouched), otherwise overwrite its amount. -/
def updateExpense (es : List Expense) (eid : Nat) (text : List Char) :
    EditResult × List Expense :=
  match parsePyFloat (pyStrip text) with
  | none => (.invalidAmount, es)
  | some v =>
      match setAmountFirst es eid v with
      | none => (.notFound, es)
      | some es2 =>
          ((es.find? (fun e => e.id = eid)).elim .notFound
            (fun e => .updated e.category v), es2)

/-- Removes the first row with the given id, returning it and the rest, as
`first()` followed by `session.delete` does; `none` when no row matches. -/
def deleteFirst : List Expense → Nat → Option (Expense × List Expense)
  | [], _ => none
  | e :: es, i =>
      if e.id = i then some (e, es)
      else (deleteFirst es i).map (fun p => (p.1, e :: p.2))

/-- Outcome reported by `delete_expense`. -/
inductive DeleteResult
  | deleted (e : Expense)
  | notFound
deriving DecidableEq, Repr

/-- Models `delete_expense`: look the expense up by id alone; absent id
reports not-found and changes nothing, otherwise the row is removed. -/
def deleteExpense (es : List Expense) (eid : Nat) : DeleteResult × List Expense :=
  match deleteFirst es eid with
  | none => (.notFound, es)
  | some (e, rest) => (.deleted e, rest)

/-! ### Wallet joining (`join_wallet_id`) -/

/-- Outcome reported by `join_wallet_id` (after the numeric parse of the id). -/
inductive JoinResult
  | notFound
  | alreadyMember
  | joined
deriving DecidableEq, Repr

/-- Models `join_wallet_id` on a parsed wallet id: no such wallet reports
not-found and ends without touching membership or the user's scope; an
existing membership row is reported without duplication; otherwise a
membership row is inserted; in both non-error cases
`user_wallet_context[user_id] = wallet_id` is set. -/
def joinWallet (wallets : List Wallet) (members : List (Nat × Nat))
    (scope : Option Nat) (u wid : Nat) :
    JoinResult × List (Nat × Nat) × Option Nat :=
  if wallets.any (fun w => w.id == wid) then
    if members.any (fun m => m.1 == wid && m.2 == u) then
      (.alreadyMember, members, some wid)
    else
      (.joined, members ++ [(wid, u)], some wid)
  else
    (.notFound, members, scope)

/-! ### Archive engine (`archive_handler`) -/

/-- The month bucket key `exp.timestamp.strftime("%Y-%m")`, encoded as
`year * 100 + month`; on real datetimes (`month ≤ 12`, four-digit years) this
encoding is order-isomorphic to the lexical order on the `YYYY-MM` strings. -/
def monthKey (t : DateTime) : Nat :=
  t.year * 100 + t.month

/-- One iteration of the grouping loop: add an amount into the bucket for
`k`, creating the bucket with `total = amount, count = 1` when absent (the
dict keeps insertion order; the key set is what matters, being sorted later). -/
def addToMonth : List (Nat × ℚ × Nat) → Nat → ℚ → List (Nat × ℚ × Nat)
  | [], k, a => [(k, a, 1)]
  | (k2, t, c) :: rest, k, a =>
      if k2 = k then (k2, t + a, c + 1) :: rest
      else (k2, t, c) :: addToMonth rest k a

/-- The `monthly_data` dict of `archive_handler`: fold the expense list
left-to-right into `(month, total, count)` buckets. -/
def monthlyData (es : List Expense) : List (Nat × ℚ × Nat) :=
  es.foldl (fun acc e => addToMonth acc (monthKey e.timestamp) e.amount) []

/-- Bucket lookup in the grouped data. -/
def lookupMonth : List (Nat × ℚ × Nat) → Nat → Option (ℚ × Nat)
  | [], _ => none
  | (k2, t, c) :: rest, k => if k2 = k then some (t, c) else lookupMonth rest k

/-- `sorted(monthly_data.keys(), reverse=True)`: the month keys in
descending order. -/
def sortedMonths (es : List Expense) : List Nat :=
  ((monthlyData es).map Prod.fst).insertionSort (fun a b => a ≥ b)

/-- `total_pages = (len(items) + per_page - 1) // per_page` with
`per_page = 5`. -/
def totalPages (count : Nat) : Nat :=
  (count + 5 - 1) / 5

/-- `page = max(0, min(page, total_pages - 1))`; Python ints are signed, so
the clamp runs over `ℤ` (`total_pages - 1` is `-1` on an empty archive). -/
def clampPage (p : Int) (tp : Nat) : Int :=
  max 0 (min p ((tp : Int) - 1))

/-- `items[page*5 : page*5+5]` for a clamped (hence non-negative) page. -/
def pageSlice {α : Type} (l : List α) (page : Nat) : List α :=
  (l.drop (page * 5)).take 5

/-- The list-view pagination core of `archive_handler` (given the already
filtered, ordered expense list): clamp the requested page and slice the rows
actually rendered. -/
def archiveListPage (es : List Expense) (p : Int) : Int × List Expense :=
  let tp := totalPages es.length
  let page := clampPage p tp
  (page, pageSlice es page.toNat)

/-! ### Session context and archive navigation (`context.user_data`,
`archive_navigation`, `process_filter_date`) -/

/-- A calendar date, as stored by the `archive_filter_date` key. -/
structure Date where
  year : Nat
  month : Nat
  day : Nat
deriving DecidableEq, Repr

/-- `context.user_data['view_mode']`. -/
inductive ViewMode
  | list
  | monthly
deriving DecidableEq, Repr

/-- The archive-relevant per-user session state held in `context.user_data`. -/
structure SessionState where
  viewMode : ViewMode
  filterDate : Option Date
  filterMonth : Option Nat
  archivePage : Int
deriving DecidableEq, Repr

/-- The defaults `.get(..., 'list') / None / None / 0` used on first access. -/
def initialSession : SessionState :=
  ⟨.list, none, none, 0⟩

/-- Archive callback tokens, after prefix routing: `archive_view_monthly`,
`archive_view_list`, `month_<key>`, `archive_clear_filter`,
`archive_prev_<p>`, `archive_next_<p>` (the page payload matches `\d+`). -/
inductive Token
  | viewMonthly
  | viewList
  | monthTap (k : Nat)
  | clearFilter
  | prev (p : Nat)
  | next (p : Nat)
deriving DecidableEq, Repr

/-- The `archive_navigation` dispatch: each branch writes the session fields
exactly as the corresponding `context.user_data[...] = ...` lines do. -/
def navStep (s : SessionState) : Token → SessionState
  | .viewMonthly => ⟨.monthly, none, none, 0⟩
  | .viewList => ⟨.list, none, none, 0⟩
  | .monthTap k => { s with filterMonth := some k, viewMode := .list, archivePage := 0 }
  | .clearFilter => { s with filterDate := none, filterMonth := none, archivePage := 0 }
  | .prev p => { s with archivePage := (p : Int) - 1 }
  | .next p => { s with archivePage := (p : Int) + 1 }

/-- Day-filter predicate: membership of the timestamp in
`[day 00:00, day+1 00:00)` is exactly agreement on the calendar date. -/
def sameDay (t : DateTime) (d : Date) : Bool :=
  t.year = d.year && t.month = d.month && t.day = d.day

/-- Month-filter predicate: membership in
`[first of month, first of next month)` is exactly agreement on the month key. -/
def sameMonth (t : DateTime) (m : Nat) : Bool :=
  monthKey t = m

/-- The list-view query filters of `archive_handler`: a day filter wins over
a month filter, and both apply only in list mode. -/
def filteredExpenses (s : SessionState) (es : List Expense) : List Expense :=
  match s.viewMode with
  | .monthly => es
  | .list =>
      match s.filterDate with
      | some d => es.filter (fun e => sameDay e.timestamp d)
      | none =>
          match s.filterMonth with
          | some m => es.filter (fun e => sameMonth e.timestamp m)
          | none => es

/-- The archive controls `archive_handler` renders for a session state over
the scope's expense list: month rows (monthly mode only), then `Previous`
iff the clamped page is positive, `Next` iff it is below the last page, the
mode toggle, and `Clear Filter` iff a filter is active. -/
def controls (s : SessionState) (es : List Expense) : List Token :=
  match s.viewMode with
  | .monthly =>
      let months := sortedMonths es
      let tp := totalPages months.length
      let page := clampPage s.archivePage tp
      (pageSlice months page.toNat).map Token.monthTap
        ++ (if 0 < page then [Token.prev page.toNat] else [])
        ++ (if page < (tp : Int) - 1 then [Token.next page.toNat] else [])
        ++ [Token.viewList]
        ++ (if s.filterMonth.isSome || s.filterDate.isSome then [Token.clearFilter] else [])
  | .list =>
      let fes := filteredExpenses s es
      let tp := totalPages fes.length
      let page := clampPage s.archivePage tp
      (if 0 < page then [Token.prev page.toNat] else [])
        ++ (if page < (tp : Int) - 1 then [Token.next page.toNat] else [])
        ++ [Token.viewMonthly]
        ++ (if s.filterDate.isSome || s.filterMonth.isSome then [Token.clearFilter] else [])

/-- The session states a user can reach: the default context, any
`archive_navigation` step on a token offered by a render of the current state
(over whatever the scope's expenses then are), and the `process_filter_date`
write (`archive_filter_date := d, archive_page := 0`). -/
inductive Reachable : SessionState → Prop
  | init : Reachable initialSession
  | nav {s : SessionState} {es : List Expense} {t : Token} :
      Reachable s → t ∈ controls s es → Reachable (navStep s t)
  | setDate {s : SessionState} (d : Date) :
      Reachable s → Reachable { s with filterDate := some d, archivePage := 0 }

/-! ### Operation sequences over the expense store -/

/-- A store-mutating user action on the expense table: recording an expense
(`expense_handler`), an amount edit (`update_expense`), a delete
(`delete_expense`). -/
inductive Op
  | record (u : Nat) (w : Option Nat) (now : DateTime) (text : List Char)
  | edit (eid : Nat) (text : List Char)
  | delete (eid : Nat)
deriving DecidableEq, Repr

/-- Effect of one action on the expense table. -/
def applyOp (es : List Expense) : Op → List Expense
  | .record u w now text => recordExpense es u w now text
  | .edit eid text => (updateExpense es eid text).2
  | .delete eid => (deleteExpense es eid).2

/-- Every edit in the sequence whose reply text parses at all carries a
non-negative value. -/
def NonnegEditTexts (ops : List Op) : Prop :=
  ∀ op ∈ ops, ∀ eid text, op = Op.edit eid text →
    ∀ v, parsePyFloat (pyStrip text) = some v → 0 ≤ v

/-! ### Supporting lemmas -/

theorem totalPages_bounds (C : Nat) : C ≤ 5 * totalPages C ∧ 5 * totalPages C < C + 5 := by
  unfold totalPages
  omega

theorem totalPages_eq_ceil (C : Nat) : (totalPages C : ℤ) = ⌈(C : ℚ) / 5⌉ := by
  have h := totalPages_bounds C
  symm
  rw [Int.ceil_eq_iff]
  constructor
  · rw [lt_div_iff₀ (by norm_num : (0 : ℚ) < 5)]
    push_cast
    have hq : (5 : ℚ) * (totalPages C : ℚ) < (C : ℚ) + 5 := by exact_mod_cast h.2
    linarith
  · rw [div_le_iff₀ (by norm_num : (0 : ℚ) < 5)]
    push_cast
    have hq : (C : ℚ) ≤ 5 * (totalPages C : ℚ) := by exact_mod_cast h.1
    linarith

theorem clampPage_nonneg (p : Int) (tp : Nat) : 0 ≤ clampPage p tp := by
  unfold clampPage
  omega

theorem clampPage_le (p : Int) (tp : Nat) (h : 1 ≤ tp) :
    clampPage p tp ≤ (tp : Int) - 1 := by
  unfold clampPage
  omega

theorem clampPage_of_ge (p : Int) (tp : Nat) (h1 : 1 ≤ tp) (h2 : (tp : Int) ≤ p) :
    clampPage p tp = (tp : Int) - 1 := by
  unfold clampPage
  omega

theorem clampPage_of_lt (p : Int) (tp : Nat) (h0 : 0 ≤ p) (h2 : p ≤ (tp : Int) - 1) :
    clampPage p tp = p := by
  unfold clampPage
  omega

/-! ### C1 -/

/-- C1: for a scope transaction list of length `C` the list view computes
`total_pages = ⌈C/5⌉`; on an empty list it renders page 0 with no rows; and
the rendered page is the requested page clamped into `[0, total_pages − 1]`
(in particular any requested page at or beyond `total_pages` renders page
`total_pages − 1`). -/
theorem archive_list_pagination (es : List Expense) (p : Int) :
    ((totalPages es.length : ℤ) = ⌈(es.length : ℚ) / 5⌉)
    ∧ (es = [] → archiveListPage es p = (0, []))
    ∧ (archiveListPage es p).1 = clampPage p (totalPages es.length)
    ∧ 0 ≤ (archiveListPage es p).1
    ∧ (1 ≤ totalPages es.length →
        (archiveListPage es p).1 ≤ (totalPages es.length : Int) - 1)
    ∧ (1 ≤ totalPages es.length → (totalPages es.length : Int) ≤ p →
        (archiveListPage es p).1 = (totalPages es.length : Int) - 1)
    ∧ (0 ≤ p → p ≤ (totalPages es.length : Int) - 1 → (archiveListPage es p).1 = p)
    ∧ (archiveListPage es p).2.length ≤ 5 := by
  refine ⟨totalPages_eq_ceil es.length, ?_, rfl, clampPage_nonneg p _, clampPage_le p _,
    clampPage_of_ge p _, clampPage_of_lt p _, ?_⟩
  · rintro rfl
    have h0 : clampPage p (totalPages 0) = 0 := by
      unfold clampPage totalPages
      omega
    simp [archiveListPage, pageSlice, h0]
  · simp only [archiveListPage, pageSlice]
    simp [List.length_take]

/-- C1 witness: the empty archive renders page 0 with no rows even when
page 3 is requested. -/
theorem archive_list_pagination_witness : archiveListPage [] 3 = (0, []) :=
  (archive_list_pagination [] 3).2.1 rfl

/-! ### C3 -/

/-- C3: both view-mode switch tokens leave the session with the day filter
cleared, the month filter cleared and the archive page reset to 0, whatever
the previous field values were. -/
theorem view_switch_resets (s : SessionState) :
    (navStep s .viewMonthly).filterDate = none
    ∧ (navStep s .viewMonthly).filterMonth = none
    ∧ (navStep s .viewMonthly).archivePage = 0
    ∧ (navStep s .viewList).filterDate = none
    ∧ (navStep s .viewList).filterMonth = none
    ∧ (navStep s .viewList).archivePage = 0 := by
  simp [navStep]

/-! ### C9 -/

theorem deleteFirst_eq_none (es : List Expense) (eid : Nat)
    (h : ∀ e ∈ es, e.id ≠ eid) : deleteFirst es eid = none := by
  induction es with
  | nil => rfl
  | cons e rest ih =>
      simp only [deleteFirst]
      rw [if_neg (h e (List.mem_cons_self e rest))]
      rw [ih (fun x hx => h x (List.mem_cons_of_mem e hx))]
      rfl

/-- C9: deleting a transaction id that is absent from the store reports
not-found and returns the store unchanged. -/
theorem delete_missing_unchanged (es : List Expense) (eid : Nat)
    (h : ∀ e ∈ es, e.id ≠ eid) :
    deleteExpense es eid = (.notFound, es) := by
  unfold deleteExpense
  rw [deleteFirst_eq_none es eid h]

/-- C9 witness: deleting id 99 from a one-row store that lacks it. -/
theorem delete_missing_unchanged_witness :
    deleteExpense [⟨1, 7, ['a'], 5, ⟨2024, 1, 1, 0, 0⟩, none⟩] 99 =
      (.notFound, [⟨1, 7, ['a'], 5, ⟨2024, 1, 1, 0, 0⟩, none⟩]) :=
  delete_missing_unchanged _ 99 (by decide)

/-! ### C6 -/

theorem setAmountFirst_frame (es : List Expense) (eid : Nat) (v : ℚ)
    (es2 : List Expense) (h : setAmountFirst es eid v = some es2) :
    List.Forall₂
      (fun a b => b.id = a.id ∧ b.user_id = a.user_id ∧ b.category = a.category
        ∧ b.timestamp = a.timestamp ∧ b.wallet_id = a.wallet_id
        ∧ (a.id ≠ eid → b = a))
      es es2 := by
  induction es generalizing es2 with
  | nil => simp [setAmountFirst] at h
  | cons e rest ih =>
      by_cases he : e.id = eid
      · simp only [setAmountFirst, if_pos he] at h
        cases h
        exact List.Forall₂.cons
          ⟨rfl, rfl, rfl, rfl, rfl, fun hne => absurd he hne⟩
          ((List.forall₂_same).2 (fun x _ => ⟨rfl, rfl, rfl, rfl, rfl, fun _ => rfl⟩))
      · simp only [setAmountFirst, if_neg he] at h
        cases hrec : setAmountFirst rest eid v with
        | none =>
            rw [hrec] at h
            exact Option.noConfusion h
        | some rest2 =>
            rw [hrec] at h
            rw [Option.map_some'] at h
            cases h
            exact List.Forall₂.cons ⟨rfl, rfl, rfl, rfl, rfl, fun _ => rfl⟩ (ih rest2 hrec)

/-- C6: an amount edit is frame-preserving: row for row, the store after
`update_expense` keeps every id, owner, category, timestamp and wallet
unchanged, and every row whose id is not the edited one is wholly unchanged
(this covers the failure branches too, where the store is untouched). -/
theorem edit_amount_frame (es : List Expense) (eid : Nat) (text : List Char) :
    List.Forall₂
      (fun a b => b.id = a.id ∧ b.user_id = a.user_id ∧ b.category = a.category
        ∧ b.timestamp = a.timestamp ∧ b.wallet_id = a.wallet_id
        ∧ (a.id ≠ eid → b = a))
      es (updateExpense es eid text).2 := by
  have hrefl : List.Forall₂
      (fun a b => b.id = a.id ∧ b.user_id = a.user_id ∧ b.category = a.category
        ∧ b.timestamp = a.timestamp ∧ b.wallet_id = a.wallet_id
        ∧ (a.id ≠ eid → b = a))
      es es :=
    (List.forall₂_same).2 (fun x _ => ⟨rfl, rfl, rfl, rfl, rfl, fun _ => rfl⟩)
  unfold updateExpense
  cases hp : parsePyFloat (pyStrip text) with
  | none => exact hrefl
  | some v =>
      dsimp only
      cases hs : setAmountFirst es eid v with
      | none => exact hrefl
      | some es2 =>
          dsimp only
          exact setAmountFirst_frame es eid v es2 hs

/-- C6 witness: the frame relation at a concrete store and edit. -/
theorem edit_amount_frame_witness :
    List.Forall₂
      (fun a b => b.id = a.id ∧ b.user_id = a.user_id ∧ b.category = a.category
        ∧ b.timestamp = a.timestamp ∧ b.wallet_id = a.wallet_id
        ∧ (a.id ≠ 1 → b = a))
      [⟨1, 7, ['a'], 5, ⟨2024, 1, 1, 0, 0⟩, none⟩,
       ⟨2, 8, ['b'], 6, ⟨2024, 2, 1, 0, 0⟩, some 77⟩]
      (updateExpense
        [⟨1, 7, ['a'], 5, ⟨2024, 1, 1, 0, 0⟩, none⟩,
         ⟨2, 8, ['b'], 6, ⟨2024, 2, 1, 0, 0⟩, some 77⟩] 1 ('9' :: [])).2 :=
  edit_amount_frame _ 1 _

/-! ### C10 -/

theorem head_id_ne_of_mem_nodup (x e : Expense) (rest : List Expense)
    (hmem : e ∈ rest) (hn : ((x :: rest).map Expense.id).Nodup) :
    x.id ≠ e.id := by
  intro hid
  simp only [List.map_cons, List.nodup_cons] at hn
  exact hn.1 (hid ▸ List.mem_map_of_mem Expense.id hmem)

theorem deleteFirst_of_mem_nodup (es : List Expense) (e : Expense)
    (hmem : e ∈ es) (hn : (es.map Expense.id).Nodup) :
    deleteFirst es e.id = some (e, es.erase e) := by
  induction es with
  | nil => cases hmem
  | cons x rest ih =>
      rcases List.mem_cons.1 hmem with rfl | hmem2
      · simp [deleteFirst, List.erase_cons_head]
      · have hne : x.id ≠ e.id := head_id_ne_of_mem_nodup x e rest hmem2 hn
        have hxe : x ≠ e := fun hxe => hne (hxe ▸ rfl)
        simp only [deleteFirst, if_neg hne]
        rw [ih hmem2 (by simpa using (List.nodup_cons.1 (by simpa using hn)).2)]
        simp [List.erase_cons, hxe]

theorem find_id_of_mem_nodup (es : List Expense) (e : Expense)
    (hmem : e ∈ es) (hn : (es.map Expense.id).Nodup) :
    es.find? (fun x => x.id = e.id) = some e := by
  induction es with
  | nil => cases hmem
  | cons x rest ih =>
      rcases List.mem_cons.1 hmem with rfl | hmem2
      · simp [List.find?]
      · have hne : x.id ≠ e.id := head_id_ne_of_mem_nodup x e rest hmem2 hn
        rw [List.find?_cons_of_neg _ (by simp [hne])]
        exact ih hmem2 (by simpa using (List.nodup_cons.1 (by simpa using hn)).2)

theorem setAmountFirst_of_mem_nodup (es : List Expense) (e : Expense) (v : ℚ)
    (hmem : e ∈ es) (hn : (es.map Expense.id).Nodup) :
    ∃ es2, setAmountFirst es e.id v = some es2 ∧ { e with amount := v } ∈ es2 := by
  induction es with
  | nil => cases hmem
  | cons x rest ih =>
      rcases List.mem_cons.1 hmem with rfl | hmem2
      · exact ⟨{ e with amount := v } :: rest, by simp [setAmountFirst], List.mem_cons_self _ _⟩
      · have hne : x.id ≠ e.id := head_id_ne_of_mem_nodup x e rest hmem2 hn
        obtain ⟨rest2, hres, hmem3⟩ :=
          ih hmem2 (by simpa using (List.nodup_cons.1 (by simpa using hn)).2)
        exact ⟨x :: rest2, by simp [setAmountFirst, if_neg hne, hres],
          List.mem_cons_of_mem x hmem3⟩

/-- C10 (implicit behavior): the edit and delete operations locate a
transaction by id alone; for any acting user who does not own the
transaction and is not a member of its wallet, `delete_<id>` still removes
exactly that row and the amount-edit flow still succeeds and rewrites its
amount. -/
theorem edit_delete_ignore_scope (es : List Expense) (members : List (Nat × Nat))
    (actor : Nat) (e : Expense) (text : List Char) (v : ℚ)
    (hmem : e ∈ es) (hids : (es.map Expense.id).Nodup)
    (howner : e.user_id ≠ actor)
    (hwallet : ∀ w, e.wallet_id = some w → (w, actor) ∉ members)
    (hparse : parsePyFloat (pyStrip text) = some v) :
    deleteExpense es e.id = (.deleted e, es.erase e)
    ∧ (updateExpense es e.id text).1 = .updated e.category v
    ∧ { e with amount := v } ∈ (updateExpense es e.id text).2 := by
  obtain ⟨es2, hset, hmemv⟩ := setAmountFirst_of_mem_nodup es e v hmem hids
  refine ⟨?_, ?_, ?_⟩
  · unfold deleteExpense
    rw [deleteFirst_of_mem_nodup es e hmem hids]
  · unfold updateExpense
    rw [hparse]
    dsimp only
    rw [hset]
    dsimp only
    rw [find_id_of_mem_nodup es e hmem hids]
    rfl
  · unfold updateExpense
    rw [hparse]
    dsimp only
    rw [hset]
    exact hmemv

/-- C10 witness: user 2, who neither owns expense 1 (owner 9) nor belongs to
its wallet 5, still deletes and edits it. -/
theorem edit_delete_ignore_scope_witness :
    deleteExpense [⟨1, 9, ['a'], 5, ⟨2024, 1, 1, 0, 0⟩, some 5⟩] 1 =
      (.deleted ⟨1, 9, ['a'], 5, ⟨2024, 1, 1, 0, 0⟩, some 5⟩, [])
    ∧ (updateExpense [⟨1, 9, ['a'], 5, ⟨2024, 1, 1, 0, 0⟩, some 5⟩] 1 ('7' :: [])).1 =
        .updated ['a'] 7
    ∧ (⟨1, 9, ['a'], 7, ⟨2024, 1, 1, 0, 0⟩, some 5⟩ : Expense) ∈
        (updateExpense [⟨1, 9, ['a'], 5, ⟨2024, 1, 1, 0, 0⟩, some 5⟩] 1 ('7' :: [])).2 :=
  edit_delete_ignore_scope [⟨1, 9, ['a'], 5, ⟨2024, 1, 1, 0, 0⟩, some 5⟩] [] 2
    ⟨1, 9, ['a'], 5, ⟨2024, 1, 1, 0, 0⟩, some 5⟩ ('7' :: []) 7
    (by decide) (by decide) (by decide) (by decide) (by decide)

/-! ### C7 -/

/-- C7: wallet join is idempotent. From a state where the wallet exists and
the user holds no membership row for it: the first join reports joined, the
second reports already-a-member, exactly one `(wallet, user)` membership row
results and the second join adds nothing; both non-error joins set the
session scope to the wallet; and joining an id with no wallet reports
not-found and changes neither membership nor scope. -/
theorem join_wallet_idempotent (wallets : List Wallet) (members : List (Nat × Nat))
    (scope : Option Nat) (u wid : Nat)
    (hw : ∃ w ∈ wallets, w.id = wid)
    (hnm : ∀ m ∈ members, ¬(m.1 = wid ∧ m.2 = u)) :
    (joinWallet wallets members scope u wid).1 = .joined
    ∧ (joinWallet wallets members scope u wid).2.2 = some wid
    ∧ (joinWallet wallets ((joinWallet wallets members scope u wid).2.1)
        (some wid) u wid).1 = .alreadyMember
    ∧ (joinWallet wallets ((joinWallet wallets members scope u wid).2.1)
        (some wid) u wid).2.2 = some wid
    ∧ (joinWallet wallets ((joinWallet wallets members scope u wid).2.1)
        (some wid) u wid).2.1 =
        (joinWallet wallets members scope u wid).2.1
    ∧ ((joinWallet wallets ((joinWallet wallets members scope u wid).2.1)
        (some wid) u wid).2.1).countP (fun m => m.1 == wid && m.2 == u) = 1
    ∧ (∀ wid2, (∀ w ∈ wallets, w.id ≠ wid2) →
        joinWallet wallets members scope u wid2 = (.notFound, members, scope)) := by
  have hwany : wallets.any (fun w => w.id == wid) = true := by
    obtain ⟨w, hwmem, hwid⟩ := hw
    exact List.any_eq_true.2 ⟨w, hwmem, by simp [hwid]⟩
  have hmany : members.any (fun m => m.1 == wid && m.2 == u) = false := by
    rw [List.any_eq_false]
    intro m hm
    have := hnm m hm
    simp only [Bool.and_eq_true, beq_iff_eq]
    tauto
  have hcount : members.countP (fun m => m.1 == wid && m.2 == u) = 0 := by
    rw [List.countP_eq_zero]
    intro m hm
    have := hnm m hm
    simp only [Bool.and_eq_true, beq_iff_eq]
    tauto
  have hfirst : joinWallet wallets members scope u wid =
      (.joined, members ++ [(wid, u)], some wid) := by
    unfold joinWallet
    rw [hwany, hmany]
    rfl
  have hmany2 : (members ++ [(wid, u)]).any (fun m => m.1 == wid && m.2 == u) = true := by
    simp
  have hsecond : joinWallet wallets (members ++ [(wid, u)]) (some wid) u wid =
      (.alreadyMember, members ++ [(wid, u)], some wid) := by
    unfold joinWallet
    rw [hwany, hmany2]
    rfl
  refine ⟨by rw [hfirst], by rw [hfirst], ?_, ?_, ?_, ?_, ?_⟩
  · rw [hfirst]
    dsimp only
    rw [hsecond]
  · rw [hfirst]
    dsimp only
    rw [hsecond]
  · rw [hfirst]
    dsimp only
    rw [hsecond]
  · rw [hfirst]
    dsimp only
    rw [hsecond]
    dsimp only
    rw [List.countP_append, hcount]
    simp [List.countP_cons]
  · intro wid2 habs
    have : wallets.any (fun w => w.id == wid2) = false := by
      rw [List.any_eq_false]
      intro w hwmem
      simp [habs w hwmem]
    unfold joinWallet
    rw [this]
    rfl

/-- C7 witness: user 2 joins wallet 77 twice from a fresh membership table. -/
theorem join_wallet_idempotent_witness :
    (joinWallet [⟨77, ['w'], 1⟩] [] none 2 77).1 = .joined
    ∧ (joinWallet [⟨77, ['w'], 1⟩]
        ((joinWallet [⟨77, ['w'], 1⟩] [] none 2 77).2.1) (some 77) 2 77).1 =
        .alreadyMember
    ∧ ((joinWallet [⟨77, ['w'], 1⟩]
        ((joinWallet [⟨77, ['w'], 1⟩] [] none 2 77).2.1) (some 77) 2 77).2.1).countP
        (fun m => m.1 == 77 && m.2 == 2) = 1 := by
  have h := join_wallet_idempotent [⟨77, ['w'], 1⟩] [] none 2 77
    ⟨⟨77, ['w'], 1⟩, by decide, rfl⟩ (by decide)
  exact ⟨h.1, h.2.2.1, h.2.2.2.2.2.1⟩

/-! ### C4 -/

theorem splitFirst_not_mem (sep : Char) (s : List Char) (h : sep ∉ s) :
    splitFirst sep s = none := by
  induction s with
  | nil => rfl
  | cons c cs ih =>
      have hcs : sep ∉ cs := fun hx => h (List.mem_cons_of_mem c hx)
      have hcne : ¬(c = sep) := fun hc => h (List.mem_cons.2 (Or.inl hc.symm))
      simp only [splitFirst]
      rw [if_neg hcne, ih hcs]
      rfl

theorem splitFirst_append (sep : Char) (c a : List Char) (h : sep ∉ c) :
    splitFirst sep (c ++ sep :: a) = some (c, a) := by
  induction c with
  | nil => simp [splitFirst]
  | cons x xs ih =>
      have hxs : sep ∉ xs := fun hx => h (List.mem_cons_of_mem x hx)
      have hxne : ¬(x = sep) := fun hx => h (List.mem_cons.2 (Or.inl hx.symm))
      show splitFirst sep (x :: (xs ++ sep :: a)) = some (x :: xs, a)
      simp only [splitFirst]
      rw [if_neg hxne, ih hxs]
      rfl

/-- C4 counterexample: the space form collapses runs of whitespace inside
the category.  On input `"a␣␣b 5"` the code stores category `"a b"`
(single-space join of the tokens), while the trimmed remaining text after
removing the amount portion is `"a␣␣b"`; the amount is still 5. -/
theorem parse_category_not_trimmed_remainder :
    parseExpense ('a' :: ' ' :: ' ' :: 'b' :: ' ' :: '5' :: []) =
      some (('a' :: ' ' :: 'b' :: []), 5)
    ∧ pyStrip ('a' :: ' ' :: ' ' :: 'b' :: []) = ('a' :: ' ' :: ' ' :: 'b' :: [])
    ∧ ('a' :: ' ' :: 'b' :: []) ≠ ('a' :: ' ' :: ' ' :: 'b' :: []) := by
  refine ⟨by decide, by decide, by decide⟩

/-- C4 amended: for the dash form `category ++ "-" ++ amountText` (first
dash splits), the parse cleans the amount text to digits and dots, takes its
numeric value, and the category is the trimmed text before the dash; for the
dash-free space form with at least two whitespace tokens, the amount portion
is the last token — cleaned and parsed the same way — and the category is
the single-space join of the remaining tokens, trimmed (which equals the
trimmed remaining text whenever the separators are single spaces). -/
theorem parse_expense_forms (c a text : List Char) (hc : '-' ∉ c)
    (ht : '-' ∉ text) (hlen : 2 ≤ (pySplitWs text).length) :
    parseExpense (c ++ '-' :: a) =
      (parsePyFloat (cleanAmount a)).map (fun v => (pyStrip c, v))
    ∧ parseExpense text =
      (parsePyFloat (cleanAmount ((pySplitWs text).getLastD []))).map
        (fun v => (pyStrip (joinSpace (pySplitWs text).dropLast), v)) := by
  constructor
  · unfold parseExpense
    rw [splitFirst_append '-' c a hc]
  · unfold parseExpense
    rw [splitFirst_not_mem '-' text ht]
    dsimp only
    rw [if_neg (by omega)]

/-- C4 amended witness: `"a-5"` parses to category `"a"`, amount 5, and
`"x 5"` parses through the space form. -/
theorem parse_expense_forms_witness :
    parseExpense (('a' :: []) ++ '-' :: ('5' :: [])) =
      (parsePyFloat (cleanAmount ('5' :: []))).map (fun v => (pyStrip ('a' :: []), v))
    ∧ parseExpense ('x' :: ' ' :: '5' :: []) =
      (parsePyFloat (cleanAmount ((pySplitWs ('x' :: ' ' :: '5' :: [])).getLastD []))).map
        (fun v => (pyStrip (joinSpace (pySplitWs ('x' :: ' ' :: '5' :: [])).dropLast), v)) :=
  parse_expense_forms ('a' :: []) ('5' :: []) ('x' :: ' ' :: '5' :: [])
    (by decide) (by decide) (by decide)

/-! ### C8 -/

theorem parseUnsigned_nonneg (s : List Char) (v : ℚ) (h : parseUnsigned s = some v) :
    0 ≤ v := by
  simp only [parseUnsigned] at h
  split_ifs at h
  all_goals cases h
  all_goals positivity

theorem parsePyFloat_nonneg (s : List Char) (hs : '-' ∉ s) (v : ℚ)
    (h : parsePyFloat s = some v) : 0 ≤ v := by
  cases s with
  | nil => exact Option.noConfusion h
  | cons c rest =>
      have hcne : ¬(c = '-') := fun hc => hs (List.mem_cons.2 (Or.inl hc.symm))
      simp only [parsePyFloat] at h
      rw [if_neg hcne] at h
      by_cases hp : c = '+'
      · rw [if_pos hp] at h
        exact parseUnsigned_nonneg _ _ h
      · rw [if_neg hp] at h
        exact parseUnsigned_nonneg _ _ h

theorem cleanAmount_no_dash (s : List Char) : '-' ∉ cleanAmount s := by
  intro h
  have := (List.mem_filter.1 h).2
  simp at this

theorem parseExpense_nonneg (t c : List Char) (v : ℚ)
    (h : parseExpense t = some (c, v)) : 0 ≤ v := by
  unfold parseExpense at h
  cases hsplit : splitFirst '-' t with
  | some p =>
      rw [hsplit] at h
      dsimp only at h
      rcases Option.map_eq_some'.1 h with ⟨w, hw, heq⟩
      cases heq
      exact parsePyFloat_nonneg _ (cleanAmount_no_dash p.2) _ hw
  | none =>
      rw [hsplit] at h
      dsimp only at h
      split at h
      · exact Option.noConfusion h
      · rcases Option.map_eq_some'.1 h with ⟨w, hw, heq⟩
        cases heq
        exact parsePyFloat_nonneg _ (cleanAmount_no_dash _) _ hw

theorem recordExpense_nonneg (es : List Expense) (u : Nat) (w : Option Nat)
    (now : DateTime) (text : List Char) (hes : ∀ e ∈ es, 0 ≤ e.amount) :
    ∀ e ∈ recordExpense es u w now text, 0 ≤ e.amount := by
  unfold recordExpense
  cases hp : parseExpense (pyStrip text) with
  | none => exact hes
  | some ca =>
      intro e he
      dsimp only at he
      rcases List.mem_append.1 he with h1 | h2
      · exact hes e h1
      · have heq : e = ⟨nextId es, u, ca.1, ca.2, now, w⟩ := by simpa using h2
        subst heq
        exact parseExpense_nonneg (pyStrip text) ca.1 ca.2 (by rw [hp])

theorem setAmountFirst_nonneg (es es2 : List Expense) (i : Nat) (v : ℚ)
    (h : setAmountFirst es i v = some es2) (hes : ∀ e ∈ es, 0 ≤ e.amount)
    (hv : 0 ≤ v) : ∀ e ∈ es2, 0 ≤ e.amount := by
  induction es generalizing es2 with
  | nil => exact Option.noConfusion h
  | cons x rest ih =>
      by_cases hx : x.id = i
      · simp only [setAmountFirst, if_pos hx] at h
        cases h
        intro e he
        rcases List.mem_cons.1 he with rfl | h2
        · exact hv
        · exact hes e (List.mem_cons_of_mem x h2)
      · simp only [setAmountFirst, if_neg hx] at h
        cases hrec : setAmountFirst rest i v with
        | none =>
            rw [hrec] at h
            exact Option.noConfusion h
        | some rest2 =>
            rw [hrec, Option.map_some'] at h
            cases h
            intro e he
            rcases List.mem_cons.1 he with rfl | h2
            · exact hes e (List.mem_cons_self e rest)
            · exact ih rest2 hrec (fun y hy => hes y (List.mem_cons_of_mem x hy)) e h2

theorem updateExpense_nonneg (es : List Expense) (eid : Nat) (text : List Char)
    (hes : ∀ e ∈ es, 0 ≤ e.amount)
    (htext : ∀ v, parsePyFloat (pyStrip text) = some v → 0 ≤ v) :
    ∀ e ∈ (updateExpense es eid text).2, 0 ≤ e.amount := by
  unfold updateExpense
  cases hp : parsePyFloat (pyStrip text) with
  | none => exact hes
  | some v =>
      dsimp only
      cases hs : setAmountFirst es eid v with
      | none => exact hes
      | some es2 =>
          dsimp only
          exact setAmountFirst_nonneg es es2 eid v hs hes (htext v hp)

theorem deleteFirst_subset (es : List Expense) (i : Nat) (p : Expense × List Expense)
    (hd : deleteFirst es i = some p) : ∀ e ∈ p.2, e ∈ es := by
  induction es generalizing p with
  | nil => exact Option.noConfusion hd
  | cons x rest ih =>
      by_cases hx : x.id = i
      · simp only [deleteFirst, if_pos hx] at hd
        cases hd
        exact fun e he => List.mem_cons_of_mem x he
      · simp only [deleteFirst, if_neg hx] at hd
        cases hrec : deleteFirst rest i with
        | none =>
            rw [hrec] at hd
            exact Option.noConfusion hd
        | some q =>
            rw [hrec, Option.map_some'] at hd
            cases hd
            intro e he
            dsimp only at he
            rcases List.mem_cons.1 he with rfl | h2
            · exact List.mem_cons_self e rest
            · exact List.mem_cons_of_mem x (ih q hrec e h2)

theorem deleteExpense_mem (es : List Expense) (i : Nat) (e : Expense)
    (he : e ∈ (deleteExpense es i).2) : e ∈ es := by
  unfold deleteExpense at he
  cases hd : deleteFirst es i with
  | none =>
      rw [hd] at he
      exact he
  | some p =>
      rw [hd] at he
      dsimp only at he
      exact deleteFirst_subset es i p hd e he

theorem foldl_applyOp_nonneg (ops : List Op) (es : List Expense)
    (hes : ∀ e ∈ es, 0 ≤ e.amount) (h : NonnegEditTexts ops) :
    ∀ e ∈ ops.foldl applyOp es, 0 ≤ e.amount := by
  induction ops generalizing es with
  | nil => exact hes
  | cons op rest ih =>
      rw [List.foldl_cons]
      have hrest : NonnegEditTexts rest :=
        fun o ho => h o (List.mem_cons_of_mem op ho)
      apply ih (applyOp es op) ?_ hrest
      cases op with
      | record u w now text => exact recordExpense_nonneg es u w now text hes
      | edit eid text =>
          exact updateExpense_nonneg es eid text hes
            (h _ (List.mem_cons_self _ _) eid text rfl)
      | delete eid => exact fun e he => hes e (deleteExpense_mem es eid e he)

/-- C8 counterexample: record `"a-5"` (stored amount 5), then edit it with
reply text `"-3"`; the edit stores the raw parsed float, leaving a
transaction with the negative amount −3 in the store. -/
theorem negative_amount_reachable :
    (updateExpense
        (recordExpense [] 7 none ⟨2024, 1, 1, 0, 0⟩ ('a' :: '-' :: '5' :: []))
        1 ('-' :: '3' :: [])).2 =
      [⟨1, 7, ('a' :: []), -3, ⟨2024, 1, 1, 0, 0⟩, none⟩]
    ∧ ((-3 : ℚ) < 0) :=
  ⟨by decide, by norm_num⟩

/-- C8 amended: every transaction created by record-expense has a
non-negative amount (the amount text is cleaned to digits and dots, so no
sign survives), and deletes remove rows only; but the amount edit stores the
parsed reply unchecked, so non-negativity of all stored amounts is invariant
exactly for those operation sequences whose successfully parsed edit replies
are non-negative. -/
theorem amounts_nonneg_of_nonneg_edits (ops : List Op) (h : NonnegEditTexts ops) :
    ∀ e ∈ ops.foldl applyOp [], 0 ≤ e.amount :=
  foldl_applyOp_nonneg ops [] (fun e he => absurd he (List.not_mem_nil e)) h

/-- C8 amended witness: record `"a-5"` then edit with `"4"`; the resulting
row has the non-negative amount 4. -/
theorem amounts_nonneg_of_nonneg_edits_witness :
    0 ≤ (⟨1, 7, ('a' :: []), 4, ⟨2024, 1, 1, 0, 0⟩, none⟩ : Expense).amount :=
  amounts_nonneg_of_nonneg_edits
    [Op.record 7 none ⟨2024, 1, 1, 0, 0⟩ ('a' :: '-' :: '5' :: []),
     Op.edit 1 ('4' :: [])]
    (by
      intro op hop eid text heq v hv
      rcases List.mem_cons.1 hop with rfl | hop2
      · exact Op.noConfusion heq
      · rcases List.mem_cons.1 hop2 with rfl | hop3
        · cases heq
          have : parsePyFloat (pyStrip ('4' :: [])) = some 4 := by decide
          rw [this] at hv
          cases hv
          norm_num
        · exact absurd hop3 (List.not_mem_nil op))
    ⟨1, 7, ('a' :: []), 4, ⟨2024, 1, 1, 0, 0⟩, none⟩
    (by decide)

/-! ### C5 -/

theorem lookupMonth_addToMonth (acc : List (Nat × ℚ × Nat)) (k k2 : Nat) (a : ℚ) :
    lookupMonth (addToMonth acc k2 a) k =
      if k = k2 then
        match lookupMonth acc k with
        | none => some (a, 1)
        | some tc => some (tc.1 + a, tc.2 + 1)
      else lookupMonth acc k := by
  induction acc with
  | nil =>
      by_cases hk : k = k2
      · subst hk
        simp [addToMonth, lookupMonth]
      · have hk2 : ¬(k2 = k) := fun h => hk h.symm
        simp [addToMonth, lookupMonth, hk, hk2]
  | cons hd tl ih =>
      obtain ⟨k3, t, c⟩ := hd
      by_cases h32 : k3 = k2
      · subst h32
        by_cases hk : k3 = k
        · subst hk
          simp [addToMonth, lookupMonth]
        · have hk2 : ¬(k = k3) := fun h => hk h.symm
          simp [addToMonth, lookupMonth, hk, hk2]
      · by_cases hk3 : k3 = k
        · have hkk2 : ¬(k = k2) := fun h => h32 (hk3.trans h)
          simp [addToMonth, lookupMonth, h32, hk3, hkk2]
        · simp [addToMonth, lookupMonth, h32, hk3, ih]

theorem lookupMonth_foldl (es : List Expense) (acc : List (Nat × ℚ × Nat)) (k : Nat) :
    lookupMonth (es.foldl (fun a e => addToMonth a (monthKey e.timestamp) e.amount) acc) k =
      match lookupMonth acc k with
      | none =>
          if (es.filter (fun e => monthKey e.timestamp = k)).isEmpty then none
          else
            some (((es.filter (fun e => monthKey e.timestamp = k)).map Expense.amount).sum,
              (es.filter (fun e => monthKey e.timestamp = k)).length)
      | some tc =>
          some (tc.1 + ((es.filter (fun e => monthKey e.timestamp = k)).map Expense.amount).sum,
            tc.2 + (es.filter (fun e => monthKey e.timestamp = k)).length) := by
  induction es generalizing acc with
  | nil =>
      cases hacc : lookupMonth acc k with
      | none => simp [hacc]
      | some tc => simp [hacc]
  | cons e rest ih =>
      rw [List.foldl_cons, ih]
      by_cases hk : monthKey e.timestamp = k
      · rw [lookupMonth_addToMonth, if_pos hk.symm]
        cases hacc : lookupMonth acc k with
        | none =>
            cases hrest : lookupMonth acc k with
            | none => simp [hk, hacc, List.sum_cons, Nat.add_comm, add_assoc, add_comm]
            | some tc2 => rw [hacc] at hrest; exact Option.noConfusion hrest
        | some tc =>
            simp only [hacc]
            simp [hk, add_assoc, Nat.add_comm, Nat.add_assoc, add_comm, add_left_comm]
      · rw [lookupMonth_addToMonth, if_neg (fun h => hk h.symm)]
        simp [hk]

theorem addToMonth_keys (acc : List (Nat × ℚ × Nat)) (k : Nat) (a : ℚ) :
    (addToMonth acc k a).map Prod.fst =
      if k ∈ acc.map Prod.fst then acc.map Prod.fst else acc.map Prod.fst ++ [k] := by
  induction acc with
  | nil => simp [addToMonth]
  | cons hd tl ih =>
      obtain ⟨k2, t, c⟩ := hd
      by_cases hk : k2 = k
      · subst hk
        simp [addToMonth]
      · have hk2 : ¬(k = k2) := fun h => hk h.symm
        by_cases hmem : k ∈ tl.map Prod.fst
        · simp [addToMonth, hk, hk2, hmem, ih]
        · simp [addToMonth, hk, hk2, hmem, ih]

theorem monthlyData_keys_nodup (es : List Expense) :
    ((monthlyData es).map Prod.fst).Nodup := by
  suffices h : ∀ acc : List (Nat × ℚ × Nat), (acc.map Prod.fst).Nodup →
      ((es.foldl (fun a e => addToMonth a (monthKey e.timestamp) e.amount) acc).map
        Prod.fst).Nodup from h [] (by simp)
  induction es with
  | nil => exact fun acc h => h
  | cons e rest ih =>
      intro acc h
      rw [List.foldl_cons]
      apply ih
      rw [addToMonth_keys]
      by_cases hmem : monthKey e.timestamp ∈ acc.map Prod.fst
      · rw [if_pos hmem]
        exact h
      · rw [if_neg hmem]
        refine List.nodup_append.2 ⟨h, List.nodup_singleton _, ?_⟩
        intro x hx hx1
        rw [List.mem_singleton.1 hx1] at hx
        exact hmem hx

/-- C5: the monthly view groups the scope's transactions by UTC calendar
month: two transactions whose timestamps agree on year and month always land
on the same bucket key and bucket keys are pairwise distinct (one shared
bucket); the bucket for key `k` exists iff some transaction has that month,
with `count` the number of contributing transactions and `total` the sum of
their amounts; and the month keys are presented sorted in descending order
(a permutation of the bucket keys). -/
theorem monthly_grouping (es : List Expense) (k : Nat) :
    (∀ e1 ∈ es, ∀ e2 ∈ es, e1.timestamp.year = e2.timestamp.year →
        e1.timestamp.month = e2.timestamp.month →
        monthKey e1.timestamp = monthKey e2.timestamp)
    ∧ ((monthlyData es).map Prod.fst).Nodup
    ∧ lookupMonth (monthlyData es) k =
        (if (es.filter (fun e => monthKey e.timestamp = k)).isEmpty then none
         else
           some (((es.filter (fun e => monthKey e.timestamp = k)).map Expense.amount).sum,
             (es.filter (fun e => monthKey e.timestamp = k)).length))
    ∧ List.Sorted (fun a b => a ≥ b) (sortedMonths es)
    ∧ List.Perm (sortedMonths es) ((monthlyData es).map Prod.fst) := by
  refine ⟨?_, monthlyData_keys_nodup es, ?_, ?_, ?_⟩
  · intro e1 _ e2 _ hy hm
    unfold monthKey
    rw [hy, hm]
  · have h := lookupMonth_foldl es [] k
    simpa [monthlyData, lookupMonth] using h
  · exact List.sorted_insertionSort _ _
  · exact List.perm_insertionSort _ _

/-- C5 witness: two March-2024 transactions on different days share the
single bucket `2024-03`, whose aggregate is `(total 7, count 2)`. -/
theorem monthly_grouping_witness :
    monthKey (⟨2024, 3, 1, 10, 30⟩ : DateTime) = monthKey (⟨2024, 3, 9, 23, 5⟩ : DateTime)
    ∧ lookupMonth
        (monthlyData
          [⟨1, 7, ['a'], 5, ⟨2024, 3, 1, 10, 30⟩, none⟩,
           ⟨2, 7, ['b'], 2, ⟨2024, 3, 9, 23, 5⟩, none⟩]) 202403 = some (7, 2) := by
  have h := monthly_grouping
    [⟨1, 7, ['a'], 5, ⟨2024, 3, 1, 10, 30⟩, none⟩,
     ⟨2, 7, ['b'], 2, ⟨2024, 3, 9, 23, 5⟩, none⟩] 202403
  refine ⟨h.1 ⟨1, 7, ['a'], 5, ⟨2024, 3, 1, 10, 30⟩, none⟩ (by simp)
      ⟨2, 7, ['b'], 2, ⟨2024, 3, 9, 23, 5⟩, none⟩ (by simp) rfl rfl, ?_⟩
  rw [h.2.2.1]
  norm_num [monthKey]

/-! ### C2 -/

theorem mem_if_nil {α : Type} (x : α) (p : Prop) [Decidable p] (l : List α)
    (h : x ∈ if p then l else []) : p ∧ x ∈ l := by
  by_cases hp : p
  · rw [if_pos hp] at h
    exact ⟨hp, h⟩
  · rw [if_neg hp] at h
    cases h

/-- A `Previous` control is only ever rendered with a positive page embedded
in its token. -/
theorem prev_mem_controls (s : SessionState) (es : List Expense) (p : Nat)
    (h : Token.prev p ∈ controls s es) : 1 ≤ p := by
  obtain ⟨vm, fd, fm, ap⟩ := s
  cases vm with
  | monthly =>
      simp only [controls, List.mem_append] at h
      rcases h with (((h | h) | h) | h) | h
      · rcases List.mem_map.1 h with ⟨a, _, habs⟩
        exact Token.noConfusion habs
      · obtain ⟨hpos, hmem⟩ := mem_if_nil _ _ _ h
        have hp := List.mem_singleton.1 hmem
        cases hp
        omega
      · obtain ⟨_, hmem⟩ := mem_if_nil _ _ _ h
        exact Token.noConfusion (List.mem_singleton.1 hmem)
      · exact Token.noConfusion (List.mem_singleton.1 h)
      · obtain ⟨_, hmem⟩ := mem_if_nil _ _ _ h
        exact Token.noConfusion (List.mem_singleton.1 hmem)
  | list =>
      simp only [controls, List.mem_append] at h
      rcases h with ((h | h) | h) | h
      · obtain ⟨hpos, hmem⟩ := mem_if_nil _ _ _ h
        have hp := List.mem_singleton.1 hmem
        cases hp
        omega
      · obtain ⟨_, hmem⟩ := mem_if_nil _ _ _ h
        exact Token.noConfusion (List.mem_singleton.1 hmem)
      · exact Token.noConfusion (List.mem_singleton.1 h)
      · obtain ⟨_, hmem⟩ := mem_if_nil _ _ _ h
        exact Token.noConfusion (List.mem_singleton.1 hmem)

/-- C2: a navigation token `archive_prev_<p>` / `archive_next_<p>` makes
`archive_navigation` write `p − 1` / `p + 1` into the session's archive
page, computed from the page embedded in the token and independent of the
session's current page (any two sessions compute the same value); and every
session state reachable through rendered controls and the date-filter flow
holds a non-negative archive page. -/
theorem archive_nav_page_tokens (s : SessionState) (p : Nat) :
    (navStep s (.prev p)).archivePage = (p : Int) - 1
    ∧ (navStep s (.next p)).archivePage = (p : Int) + 1
    ∧ (∀ s2 : SessionState,
        (navStep s (.prev p)).archivePage = (navStep s2 (.prev p)).archivePage
        ∧ (navStep s (.next p)).archivePage = (navStep s2 (.next p)).archivePage)
    ∧ (∀ s2 : SessionState, Reachable s2 → 0 ≤ s2.archivePage) := by
  refine ⟨rfl, rfl, fun s2 => ⟨rfl, rfl⟩, ?_⟩
  intro s2 h
  induction h with
  | init => exact le_refl 0
  | @nav s3 es t hr hmem ih =>
      cases t with
      | viewMonthly => simp [navStep]
      | viewList => simp [navStep]
      | monthTap k => simp [navStep]
      | clearFilter => simp [navStep]
      | prev q =>
          have h1 : 1 ≤ q := prev_mem_controls s3 es q hmem
          simp only [navStep]
          omega
      | next q =>
          simp only [navStep]
          omega
  | setDate d hr ih => exact le_refl 0

/-- C2 witness: the state reached by tapping the rendered mode toggle from
the default session has a non-negative archive page. -/
theorem archive_nav_page_tokens_witness :
    0 ≤ (navStep initialSession Token.viewMonthly).archivePage :=
  (archive_nav_page_tokens initialSession 0).2.2.2
    (navStep initialSession Token.viewMonthly)
    (@Reachable.nav initialSession [] Token.viewMonthly Reachable.init (by decide))

end ExpensesBot
